import Mathlib

/-!
Verification of the Panel-Desktop taskbar application (src/main.py).

The Python code queries system state through CLI tools and parses their
textual/JSON output.  Below we shallowly embed the pure parsing and state
manipulation logic of the functions the claims are about:

* `DesktopPanel.update_windows_threaded` / `update_windows_display`
* `DesktopPanel.get_wifi_networks`
* `DesktopPanel.get_storage_devices`
* `DesktopPanel.get_volume_info`
* `ApplicationMenu.load_applications`
* `DesktopPanel.update_system_info_threaded`
* `DesktopPanel.update_clock` / `setup_timers`
* `DesktopPanel.add_notification` / `remove_notification` /
  `clear_all_notifications`
* `DesktopPanel.load_settings`

Subprocess invocations are modelled by passing the textual output as an
`Option String` argument (`none` = the subprocess call itself failed).
Python exceptions in fallible parsing code are modelled with
`Except Unit` / `Option`.
-/

/-! ## Python string primitives

Python `str.split()` (no separator), `str.split(None, maxsplit)`,
`str.strip()`, `str.rstrip(chars)`, `str.strip(chars)`, `str.lower()`,
`int(...)` and the `in` substring test, restricted to ASCII whitespace
(the CLI outputs parsed by the program are ASCII). -/

def pySpaceChars : List Char := [' ', '\t', '\n', '\x0d', '\x0c', '\x0b']

def isPySpace (c : Char) : Bool := pySpaceChars.contains c

/-- `str.strip()`: remove leading and trailing whitespace. -/
def pyStrip (s : String) : String :=
  String.mk (((s.data.dropWhile isPySpace).reverse.dropWhile isPySpace).reverse)

/-- Split a character list into its maximal leading run of non-whitespace
characters and the remainder (used by whitespace splitting). -/
def pySplitTok : List Char → List Char × List Char
  | [] => ([], [])
  | c :: cs =>
    if isPySpace c then ([], c :: cs)
    else
      let p := pySplitTok cs
      (c :: p.1, p.2)

theorem length_dropWhile_le (p : Char → Bool) (l : List Char) :
    (l.dropWhile p).length ≤ l.length := by
  induction l with
  | nil => simp
  | cons c cs ih =>
    rw [List.dropWhile]
    split
    · exact Nat.le_succ_of_le ih
    · simp

theorem pySplitTok_snd_length (l : List Char) : (pySplitTok l).2.length ≤ l.length := by
  induction l with
  | nil => simp [pySplitTok]
  | cons c cs ih =>
    simp only [pySplitTok]
    split
    · simp
    · simpa using Nat.le_succ_of_le ih

/-- Python `s.split(None, n)`: split on whitespace runs performing at most
`n` splits; after the last split the remainder of the string (with leading
whitespace skipped) is kept verbatim as the final field. -/
def pySplitN (cs : List Char) : Nat → List String
  | 0 =>
    match cs.dropWhile isPySpace with
    | [] => []
    | c :: rest => [String.mk (c :: rest)]
  | n + 1 =>
    match cs.dropWhile isPySpace with
    | [] => []
    | c :: rest =>
      let p := pySplitTok rest
      String.mk (c :: p.1) :: pySplitN p.2 n

/-- Fuel-based unlimited whitespace split; `fuel ≥ cs.length` always
suffices, see `pySplitF_congr`. -/
def pySplitF : Nat → List Char → List String
  | 0, _ => []
  | fuel + 1, cs =>
    match cs.dropWhile isPySpace with
    | [] => []
    | c :: rest =>
      let p := pySplitTok rest
      String.mk (c :: p.1) :: pySplitF fuel p.2

theorem pySplitF_congr (f1 : Nat) : ∀ (f2 : Nat) (cs : List Char),
    cs.length ≤ f1 → cs.length ≤ f2 → pySplitF f1 cs = pySplitF f2 cs := by
  induction f1 with
  | zero =>
    intro f2 cs h1 _
    have : cs = [] := List.length_eq_zero.mp (Nat.le_zero.mp h1)
    subst this
    cases f2 with
    | zero => rfl
    | succ g => rfl
  | succ g ih =>
    intro f2 cs h1 h2
    cases hd : cs.dropWhile isPySpace with
    | nil =>
      cases f2 with
      | zero =>
        have : cs = [] := List.length_eq_zero.mp (Nat.le_zero.mp h2)
        subst this
        rfl
      | succ h => simp only [pySplitF, hd]
    | cons c rest =>
      have hlen : rest.length + 1 ≤ cs.length := by
        have := length_dropWhile_le isPySpace cs
        rw [hd] at this
        simpa using this
      have htok : (pySplitTok rest).2.length ≤ rest.length := pySplitTok_snd_length rest
      cases f2 with
      | zero =>
        exfalso
        have : cs = [] := List.length_eq_zero.mp (Nat.le_zero.mp h2)
        subst this
        simp [List.dropWhile] at hd
      | succ h =>
        simp only [pySplitF, hd]
        rw [ih h ((pySplitTok rest).2) (by omega) (by omega)]

/-- Python `s.split()` with no limit: split on whitespace runs. -/
def pySplitW (cs : List Char) : List String := pySplitF cs.length cs

/-- A fuel at least the list length computes the full split. -/
theorem pySplitF_eq_W (f : Nat) (cs : List Char) (h : cs.length ≤ f) :
    pySplitF f cs = pySplitW cs :=
  pySplitF_congr f cs.length cs h le_rfl

/-- Unfolding equation for `pySplitW`. -/
theorem pySplitW_eq (cs : List Char) :
    pySplitW cs
      = match cs.dropWhile isPySpace with
        | [] => []
        | c :: rest => String.mk (c :: (pySplitTok rest).1) :: pySplitW (pySplitTok rest).2 := by
  cases cs with
  | nil => rfl
  | cons x xs =>
    have step : pySplitW (x :: xs) = pySplitF (xs.length + 1) (x :: xs) := rfl
    rw [step, pySplitF]
    cases hd : (x :: xs).dropWhile isPySpace with
    | nil => rfl
    | cons c rest =>
      have hlen : rest.length + 1 ≤ (x :: xs).length := by
        have := length_dropWhile_le isPySpace (x :: xs)
        rw [hd] at this
        simpa using this
      have htok : (pySplitTok rest).2.length ≤ rest.length := pySplitTok_snd_length rest
      simp only [List.length_cons] at hlen
      show String.mk (c :: (pySplitTok rest).1) :: pySplitF xs.length (pySplitTok rest).2
          = String.mk (c :: (pySplitTok rest).1) :: pySplitW (pySplitTok rest).2
      exact congrArg _ (pySplitF_eq_W xs.length (pySplitTok rest).2 (by omega))

/-- Python `s.split()` applied to a string. -/
def pySplit (s : String) : List String := pySplitW s.data

/-- Python `s.lower()` (ASCII). -/
def pyLower (s : String) : String := String.mk (s.data.map Char.toLower)

/-- Python `needle in hay` (substring containment). -/
def pyContains (hay needle : String) : Bool := decide (needle.data <:+: hay.data)

/-- Python `s.rstrip(chars)`: remove trailing characters drawn from `chars`. -/
def pyRstrip (s : String) (chars : List Char) : String :=
  String.mk ((s.data.reverse.dropWhile (chars.contains ·)).reverse)

/-- Python `s.strip(chars)`: remove leading and trailing characters drawn
from `chars`. -/
def pyStripChars (s : String) (chars : List Char) : String :=
  String.mk (((s.data.dropWhile (chars.contains ·)).reverse.dropWhile
      (chars.contains ·)).reverse)

/-- Value of a string of decimal digits. -/
def digitsVal (l : List Char) : Nat :=
  l.foldl (fun a c => 10 * a + (c.toNat - 48)) 0

/-- Python `int(s)`: optional surrounding whitespace, optional sign, then a
non-empty run of decimal digits (digit-group underscores are not used by the
program's inputs and are not modelled). `none` models `ValueError`. -/
def pyInt (s : String) : Option Int :=
  let t := (pyStrip s).data
  let signDigits : Int × List Char :=
    match t with
    | '-' :: rest => (-1, rest)
    | '+' :: rest => (1, rest)
    | l => (1, l)
  if signDigits.2 ≠ [] ∧ signDigits.2.all Char.isDigit then
    some (signDigits.1 * (digitsVal signDigits.2 : Int))
  else
    none

/-- Python `s.split(sep)` for a one-character separator (the program only
splits on `":"` and `"\n"`): one field per separator occurrence. -/
def pySplitOnChar (sep : Char) : List Char → List String
  | [] => [""]
  | c :: cs =>
    let r := pySplitOnChar sep cs
    if c = sep then "" :: r
    else
      match r with
      | [] => [String.mk [c]]
      | f :: rest => String.mk (c :: f.data) :: rest

/-- Python `s.split(sep)` on a string, one-character separator. -/
def pySplitOn (s : String) (sep : Char) : List String := pySplitOnChar sep s.data

/-- Python truthiness of a `str`-or-`None` value: `None` and `""` are falsy. -/
def pyTruthy (v : Option String) : Bool :=
  match v with
  | none => false
  | some s => s ≠ ""

/-! ### Relating limited and unlimited whitespace splitting -/

theorem pySplitN_length (n : Nat) (cs : List Char) :
    (pySplitN cs n).length = min (pySplitW cs).length (n + 1) := by
  induction n generalizing cs with
  | zero =>
    rw [pySplitN, pySplitW_eq]
    cases h : cs.dropWhile isPySpace with
    | nil => simp
    | cons c rest => simp
  | succ n ih =>
    rw [pySplitN, pySplitW_eq]
    cases h : cs.dropWhile isPySpace with
    | nil => simp
    | cons c rest =>
      simp only [List.length_cons, ih]
      omega

theorem pySplitN_head (n : Nat) (cs : List Char) :
    (pySplitN cs (n + 1)).head? = (pySplitW cs).head? := by
  rw [pySplitN, pySplitW_eq]
  cases h : cs.dropWhile isPySpace with
  | nil => rfl
  | cons c rest => rfl

/-! ## Notifications (`DesktopPanel.add_notification`, `remove_notification`,
`clear_all_notifications`, initial `self.notifications = []`) -/

/-- Initial notification list (`self.notifications = []`). -/
def notifications_init {α : Type} : List α := []

/-- `add_notification`: `insert(0, n)`, then `pop()` of the last element when
the length exceeds 50. -/
def add_notification {α : Type} (n : α) (l : List α) : List α :=
  let l1 := n :: l
  if l1.length > 50 then l1.dropLast else l1

/-- `remove_notification`: delete index `i` only when `0 <= i < len`
(the Python index is an `int` and may be negative). -/
def remove_notification {α : Type} (i : Int) (l : List α) : List α :=
  if 0 ≤ i ∧ i < (l.length : Int) then l.eraseIdx i.toNat else l

/-- `clear_all_notifications`: `self.notifications.clear()`. -/
def clear_all_notifications {α : Type} (_l : List α) : List α := []

/-! ## Settings (`DesktopPanel.load_settings`) -/

/-- A JSON-representable settings value. -/
inductive SettingVal : Type
  | b (v : Bool)
  | s (v : String)
  | n (v : Int)
deriving DecidableEq, Repr

/-- The in-code defaults assigned to `self.settings` before the config file
is consulted. -/
def defaultSettings : List (String × SettingVal) :=
  [("auto_hide", .b false), ("position", .s "top"),
   ("height", .n 35), ("show_system_info", .b true)]

/-- Python `dict.update`: existing keys keep their position and take the new
value, new keys are appended in the update's order. -/
def dictUpdate (base upd : List (String × SettingVal)) : List (String × SettingVal) :=
  base.map (fun p => (p.1, ((upd.lookup p.1).getD p.2)))
    ++ upd.filter (fun p => (base.lookup p.1).isNone)

/-- `load_settings`: the argument is `none` when the config file does not
exist, `some (.error ())` when opening or JSON-decoding it raises, and
`some (.ok saved)` when it loads as a JSON object. -/
def load_settings (file : Option (Except Unit (List (String × SettingVal)))) :
    List (String × SettingVal) :=
  match file with
  | none => defaultSettings
  | some (.error _) => defaultSettings
  | some (.ok saved) => dictUpdate defaultSettings saved

/-! ## Clock (`DesktopPanel.update_clock`, `setup_timers`) -/

/-- Local wall-clock time as handed to `strftime`. -/
structure TimeHMS : Type where
  hh : Nat
  mm : Nat
  ss : Nat
deriving DecidableEq, Repr

/-- Zero-padded two-digit decimal field of `strftime` (`%H`, `%M`, `%S`). -/
def pad2 (n : Nat) : String :=
  if n < 10 then "0" ++ Nat.repr n else Nat.repr n

/-- `datetime.datetime.now().strftime("%H:%M:%S")`. -/
def strftimeHMS (t : TimeHMS) : String :=
  pad2 t.hh ++ ":" ++ pad2 t.mm ++ ":" ++ pad2 t.ss

/-- The panel state touched by the clock timer. -/
structure PanelClockState : Type where
  clock_label : String
deriving DecidableEq, Repr

/-- `update_clock`: sets the clock label to the formatted current time. -/
def update_clock (now : TimeHMS) (st : PanelClockState) : PanelClockState :=
  { st with clock_label := strftimeHMS now }

/-- Interval passed to `self.clock_timer.start(...)` in `setup_timers`. -/
def clock_timer_interval_ms : Nat := 1000

/-! ## System info worker (`DesktopPanel.update_system_info_threaded`) -/

/-- Outcome of the `psutil` queries inside the worker: either both
percentages (exact rational values), or an exception. -/
inductive PsutilResult : Type
  | ok (cpu ram : ℚ)
  | err

/-- Round half to even, as Python float formatting with `:.0f` does. -/
def roundHalfEven (q : ℚ) : Int :=
  if q - ⌊q⌋ < 1 / 2 then ⌊q⌋
  else if 1 / 2 < q - ⌊q⌋ then ⌊q⌋ + 1
  else if ⌊q⌋ % 2 = 0 then ⌊q⌋ else ⌊q⌋ + 1

/-- Python `f"{x:.0f}"` for the nonnegative percentages involved. -/
def fmtPct (q : ℚ) : String := (roundHalfEven q).repr

/-- The worker body: returns the list of payloads emitted on
`update_system_signal`, in order. -/
def update_system_worker (psutil_available : Bool) (r : PsutilResult) : List String :=
  if psutil_available then
    match r with
    | .ok cpu ram => ["CPU: " ++ fmtPct cpu ++ "% | RAM: " ++ fmtPct ram ++ "%"]
    | .err => ["Sistema: Error"]
  else
    ["Sistema: N/A"]

/-! ## Helper lemmas for the notification / settings / clock claims -/

theorem lookup_filter_of_key (p : String × SettingVal → Bool)
    (l : List (String × SettingVal)) (k : String)
    (hp : ∀ v, p (k, v) = true) :
    (l.filter p).lookup k = l.lookup k := by
  induction l with
  | nil => simp
  | cons a t ih =>
    by_cases hk : k = a.1
    · have : p a = true := by
        have := hp a.2
        rwa [hk, Prod.mk.eta] at this
      simp [List.filter_cons, this, List.lookup, hk]
    · have hbeq : (k == a.1) = false := by
        simpa using hk
      rw [List.filter_cons]
      split
      · simp [List.lookup, hbeq, ih]
      · simp [List.lookup, hbeq, ih]

theorem pad2_length (n : Nat) (h : n < 100) : (pad2 n).length = 2 := by
  interval_cases n <;> decide

theorem roundHalfEven_close (q : ℚ) : |(roundHalfEven q : ℚ) - q| ≤ 1 / 2 := by
  have h1 : (⌊q⌋ : ℚ) ≤ q := Int.floor_le q
  have h2 : q < ⌊q⌋ + 1 := Int.lt_floor_add_one q
  unfold roundHalfEven
  split_ifs with ha hb hc
  · rw [abs_le]
    constructor <;> [linarith; linarith]
  · rw [abs_le]
    push_cast
    constructor <;> [linarith; linarith]
  · rw [abs_le]
    constructor <;> [linarith; linarith]
  · rw [abs_le]
    push_cast
    constructor <;> [linarith; linarith]

/-! ## Claim theorems: notifications, settings, clock, system info -/

/-- C8: the notification list never exceeds 50 entries: the initial list
satisfies the bound, `add_notification`, `remove_notification` and
`clear_all_notifications` preserve `length ≤ 50`, `add_notification` inserts
the new item at index 0, and when the length would exceed 50 it removes the
last (oldest) entry. -/
theorem c8_notification_cap {α : Type} (n : α) (l : List α) (i : Int)
    (h : l.length ≤ 50) :
    (notifications_init (α := α)).length ≤ 50
    ∧ (add_notification n l).length ≤ 50
    ∧ (remove_notification i l).length ≤ 50
    ∧ (clear_all_notifications l).length ≤ 50
    ∧ (add_notification n l).head? = some n
    ∧ (l.length = 50 → add_notification n l = (n :: l).dropLast)
    ∧ (l.length < 50 → add_notification n l = n :: l) := by
  refine ⟨by simp [notifications_init], ?_, ?_, by simp [clear_all_notifications], ?_, ?_, ?_⟩
  · simp only [add_notification, List.length_cons]
    split
    · simp
      omega
    · simp
      omega
  · simp only [remove_notification]
    split
    · rename_i hi
      have hlt : i.toNat < l.length := by omega
      have := List.length_eraseIdx_add_one hlt
      omega
    · exact h
  · simp only [add_notification, List.length_cons]
    split
    · rename_i hl
      match l with
      | [] => simp at hl
      | b :: t => simp [List.dropLast]
    · simp
  · intro h50
    simp [add_notification, h50]
  · intro h50
    simp only [add_notification, List.length_cons]
    rw [if_neg (by omega)]

/-- C8 witness at a concrete input. -/
theorem c8_notification_cap_witness :
    (add_notification 7 [1, 2, 3]).length ≤ 50
    ∧ (add_notification 7 [1, 2, 3]).head? = some 7 := by
  have h := c8_notification_cap 7 [1, 2, 3] 1 (by decide)
  exact ⟨h.2.1, h.2.2.2.2.1⟩

/-- C9: `remove_notification` leaves the list unchanged for every index
outside `[0, len)`, deletes exactly the indexed entry when the index is in
range, and is total (never raises). -/
theorem c9_remove_out_of_range {α : Type} (i : Int) (l : List α) :
    (i < 0 → remove_notification i l = l)
    ∧ ((l.length : Int) ≤ i → remove_notification i l = l)
    ∧ (0 ≤ i → i < (l.length : Int) → remove_notification i l = l.eraseIdx i.toNat) := by
  refine ⟨?_, ?_, ?_⟩
  · intro hi
    simp only [remove_notification]
    rw [if_neg (by omega)]
  · intro hi
    simp only [remove_notification]
    rw [if_neg (by omega)]
  · intro h0 hl
    simp only [remove_notification]
    rw [if_pos ⟨h0, hl⟩]

/-- C9 witness at concrete inputs. -/
theorem c9_remove_out_of_range_witness :
    remove_notification (-1) [10, 20] = [10, 20]
    ∧ remove_notification 5 [10, 20] = [10, 20]
    ∧ remove_notification 1 [10, 20] = [10] := by
  refine ⟨(c9_remove_out_of_range (-1) [10, 20]).1 (by decide),
          (c9_remove_out_of_range 5 [10, 20]).2.1 (by decide),
          ?_⟩
  have h := (c9_remove_out_of_range 1 [10, 20]).2.2 (by decide) (by decide)
  simpa using h
theorem lookup_filter_congr (p q : String × SettingVal → Bool)
    (l : List (String × SettingVal)) (k : String)
    (h : ∀ v, p (k, v) = q (k, v)) :
    (l.filter p).lookup k = (l.filter q).lookup k := by
  induction l with
  | nil => rfl
  | cons a t ih =>
    obtain ⟨a1, a2⟩ := a
    by_cases hk : k = a1
    · subst hk
      have hpq : p (k, a2) = q (k, a2) := h a2
      rw [List.filter_cons, List.filter_cons, hpq]
      cases hq : q (k, a2)
      · exact ih
      · simp [List.lookup]
    · have e : (k == a1) = false := beq_eq_false_iff_ne.mpr hk
      rw [List.filter_cons, List.filter_cons]
      cases hp1 : p (a1, a2) <;> cases hq1 : q (a1, a2) <;>
        simp [List.lookup, e, ih]

theorem lookup_append_sv (xs ys : List (String × SettingVal)) (k : String) :
    (xs ++ ys).lookup k
      = match xs.lookup k with
        | some v => some v
        | none => ys.lookup k := by
  induction xs with
  | nil => rfl
  | cons a t ih =>
    obtain ⟨a1, a2⟩ := a
    by_cases hk : k = a1
    · subst hk
      simp [List.lookup]
    · have e : (k == a1) = false := beq_eq_false_iff_ne.mpr hk
      simp [List.lookup, e, ih]

theorem lookup_dictUpdate (base upd : List (String × SettingVal)) (k : String) :
    (dictUpdate base upd).lookup k
      = match base.lookup k with
        | some v => some ((upd.lookup k).getD v)
        | none => (upd.filter (fun p => (base.lookup p.1).isNone)).lookup k := by
  induction base with
  | nil => rfl
  | cons a t ih =>
    obtain ⟨a1, a2⟩ := a
    by_cases hk : k = a1
    · subst hk
      simp [dictUpdate, List.lookup]
    · have e : (k == a1) = false := beq_eq_false_iff_ne.mpr hk
      have hcong : (upd.filter (fun p => (((a1, a2) :: t).lookup p.1).isNone)).lookup k
          = (upd.filter (fun p => (t.lookup p.1).isNone)).lookup k := by
        apply lookup_filter_congr
        intro v
        simp [List.lookup, e]
      have hL : (dictUpdate ((a1, a2) :: t) upd).lookup k
          = ((t.map (fun p => (p.1, ((upd.lookup p.1).getD p.2))))
              ++ upd.filter (fun p => (((a1, a2) :: t).lookup p.1).isNone)).lookup k := by
        simp [dictUpdate, List.lookup, e]
      have hR : (dictUpdate t upd).lookup k
          = ((t.map (fun p => (p.1, ((upd.lookup p.1).getD p.2))))
              ++ upd.filter (fun p => (t.lookup p.1).isNone)).lookup k := rfl
      rw [hL, lookup_append_sv, hcong]
      rw [hR, lookup_append_sv] at ih
      rw [ih]
      simp [List.lookup, e]

/-- C10: after `load_settings` the settings dictionary contains the four
keys `auto_hide`, `position`, `height`, `show_system_info`; an absent or
unreadable config file yields exactly the defaults `False`, `top`, `35`,
`True`; and a loaded file is merged over the defaults so a key missing from
the file keeps its default value. -/
theorem c10_load_settings (file : Option (Except Unit (List (String × SettingVal)))) :
    ((load_settings file).lookup "auto_hide").isSome = true
    ∧ ((load_settings file).lookup "position").isSome = true
    ∧ ((load_settings file).lookup "height").isSome = true
    ∧ ((load_settings file).lookup "show_system_info").isSome = true
    ∧ load_settings none = defaultSettings
    ∧ load_settings (some (.error ())) = defaultSettings
    ∧ defaultSettings
        = [("auto_hide", .b false), ("position", .s "top"),
           ("height", .n 35), ("show_system_info", .b true)]
    ∧ (∀ saved k, (load_settings (some (.ok saved))).lookup k
        = match saved.lookup k with
          | some v => some v
          | none => defaultSettings.lookup k) := by
  have hmain : ∀ saved k, (load_settings (some (.ok saved))).lookup k
      = match saved.lookup k with
        | some v => some v
        | none => defaultSettings.lookup k := by
    intro saved k
    have hload : (load_settings (some (.ok saved))).lookup k
        = (dictUpdate defaultSettings saved).lookup k := rfl
    rw [hload, lookup_dictUpdate]
    by_cases h1 : k = "auto_hide"
    · subst h1
      have hd : defaultSettings.lookup "auto_hide" = some (.b false) := by
        simp [defaultSettings, List.lookup]
      rw [hd]
      cases saved.lookup "auto_hide" <;> rfl
    · by_cases h2 : k = "position"
      · subst h2
        have hd : defaultSettings.lookup "position" = some (.s "top") := by
          simp [defaultSettings, List.lookup]
        rw [hd]
        cases saved.lookup "position" <;> rfl
      · by_cases h3 : k = "height"
        · subst h3
          have hd : defaultSettings.lookup "height" = some (.n 35) := by
            simp [defaultSettings, List.lookup]
          rw [hd]
          cases saved.lookup "height" <;> rfl
        · by_cases h4 : k = "show_system_info"
          · subst h4
            have hd : defaultSettings.lookup "show_system_info" = some (.b true) := by
              simp [defaultSettings, List.lookup]
            rw [hd]
            cases saved.lookup "show_system_info" <;> rfl
          · have e1 : (k == "auto_hide") = false := beq_eq_false_iff_ne.mpr h1
            have e2 : (k == "position") = false := beq_eq_false_iff_ne.mpr h2
            have e3 : (k == "height") = false := beq_eq_false_iff_ne.mpr h3
            have e4 : (k == "show_system_info") = false := beq_eq_false_iff_ne.mpr h4
            have hdef : defaultSettings.lookup k = none := by
              simp [defaultSettings, List.lookup, e1, e2, e3, e4]
            rw [hdef]
            rw [lookup_filter_of_key _ _ _ (fun v => by simp [hdef])]
            cases hsv : saved.lookup k <;> simp [hsv, hdef]
  have hkeys : ∀ k v, defaultSettings.lookup k = some v →
      ((load_settings file).lookup k).isSome = true := by
    intro k v hk
    match file with
    | none => simp [load_settings, hk]
    | some (.error ()) => simp [load_settings, hk]
    | some (.ok saved) =>
      rw [hmain saved k]
      cases saved.lookup k with
      | none => simp [hk]
      | some w => simp
  refine ⟨hkeys "auto_hide" (.b false) (by simp [defaultSettings, List.lookup]),
    hkeys "position" (.s "top") (by simp [defaultSettings, List.lookup]),
    hkeys "height" (.n 35) (by simp [defaultSettings, List.lookup]),
    hkeys "show_system_info" (.b true) (by simp [defaultSettings, List.lookup]),
    rfl, rfl, rfl, hmain⟩

/-- C10 witness: a loaded file overriding one key keeps the other defaults. -/
theorem c10_load_settings_witness :
    (load_settings (some (.ok [("height", .n 40)]))).lookup "height" = some (.n 40)
    ∧ (load_settings (some (.ok [("height", .n 40)]))).lookup "position" = some (.s "top") := by
  have h := (c10_load_settings (some (.ok [("height", .n 40)]))).2.2.2.2.2.2.2
  constructor
  · rw [h [("height", .n 40)] "height"]
    rfl
  · rw [h [("height", .n 40)] "position"]
    rfl

/-- C7: the clock timer interval is 1000 ms, and each firing sets the clock
label to the current time formatted as `%H:%M:%S` — two-digit hour, minute
and second fields separated by colons (8 characters in total). -/
theorem c7_clock (st : PanelClockState) (t : TimeHMS)
    (hh : t.hh < 24) (hm : t.mm < 60) (hs : t.ss < 60) :
    clock_timer_interval_ms = 1000
    ∧ (update_clock t st).clock_label = strftimeHMS t
    ∧ strftimeHMS t = pad2 t.hh ++ ":" ++ pad2 t.mm ++ ":" ++ pad2 t.ss
    ∧ (pad2 t.hh).length = 2
    ∧ (pad2 t.mm).length = 2
    ∧ (pad2 t.ss).length = 2
    ∧ (strftimeHMS t).length = 8 := by
  have lh : (pad2 t.hh).length = 2 := pad2_length _ (by omega)
  have lm : (pad2 t.mm).length = 2 := pad2_length _ (by omega)
  have ls : (pad2 t.ss).length = 2 := pad2_length _ (by omega)
  refine ⟨rfl, rfl, rfl, lh, lm, ls, ?_⟩
  simp only [strftimeHMS, String.length_append, lh, lm, ls]
  rfl

/-- C7 witness at a concrete time. -/
theorem c7_clock_witness :
    (update_clock ⟨9, 30, 5⟩ ⟨""⟩).clock_label = strftimeHMS ⟨9, 30, 5⟩
    ∧ (strftimeHMS ⟨9, 30, 5⟩).length = 8 := by
  have h := c7_clock ⟨""⟩ ⟨9, 30, 5⟩ (by decide) (by decide) (by decide)
  exact ⟨h.2.1, h.2.2.2.2.2.2⟩

/-- C6: each invocation of the system-info worker emits exactly one signal,
with payload `CPU: {c}% | RAM: {r}%` (percentages rounded to whole numbers)
on success, `Sistema: Error` when a psutil query raises, and `Sistema: N/A`
when psutil is unavailable. -/
theorem c6_system_worker (b : Bool) (r : PsutilResult) (cpu ram : ℚ) :
    (update_system_worker b r).length = 1
    ∧ update_system_worker true (.ok cpu ram)
        = ["CPU: " ++ fmtPct cpu ++ "% | RAM: " ++ fmtPct ram ++ "%"]
    ∧ update_system_worker true .err = ["Sistema: Error"]
    ∧ update_system_worker false r = ["Sistema: N/A"]
    ∧ |(roundHalfEven cpu : ℚ) - cpu| ≤ 1 / 2
    ∧ fmtPct cpu = (roundHalfEven cpu).repr := by
  refine ⟨?_, rfl, rfl, rfl, roundHalfEven_close cpu, rfl⟩
  cases b <;> cases r <;> rfl

/-! ## Volume (`DesktopPanel.get_volume_info`)

`pactl get-sink-volume` / `pactl get-sink-mute` / `amixer get Master`
outputs are passed in as `Option String` (`none` = the subprocess raised). -/

/-- The `pactl` branch of `get_volume_info`: volume is `int` of token index 4
of the sink-volume output with trailing `%` characters removed
(`output.split()[4].rstrip(chars)` with `chars = "%"`), muted is whether the
lowercased mute output contains `yes`.  Any failure (`IndexError`,
`ValueError`, failed subprocess) yields `none`. -/
def parsePactl (vol mute : Option String) : Option (Int × Bool) := do
  let v ← vol
  let t ← (pySplit v).get? 4
  let n ← pyInt (pyRstrip t ['%'])
  let m ← mute
  return (n, pyContains (pyLower m) "yes")

/-- The `amixer` fallback of `get_volume_info`: volume is `int` of the
second-to-last whitespace token stripped of `[`, `]` and `%` on both ends,
muted is whether the lowercased output contains `off`. -/
def parseAmixer (out : Option String) : Option (Int × Bool) := do
  let o ← out
  let toks := pySplit o
  if h2 : toks.length < 2 then none
  else do
    let t ← toks.get? (toks.length - 2)
    let n ← pyInt (pyStripChars t ['[', ']', '%'])
    return (n, pyContains (pyLower o) "off")

/-- `get_volume_info`: try `pactl`, fall back to `amixer`, and return
`(0, True)` when both fail. -/
def get_volume_info (pactl_vol pactl_mute amixer_out : Option String) : Int × Bool :=
  match parsePactl pactl_vol pactl_mute with
  | some r => r
  | none =>
    match parseAmixer amixer_out with
    | some r => r
    | none => (0, true)

/-- C4: `get_volume_info` is total (never raises) and returns the pactl
parse when the pactl queries succeed — volume from token 5 (index 4) of the
sink-volume output with the trailing `%` stripped, muted iff the mute output
contains `yes` case-insensitively; otherwise the amixer parse, muted iff
that output contains `off` case-insensitively; and `(0, True)` when both
fail. -/
theorem c4_volume_info (pv pm am : Option String) :
    (∀ r, parsePactl pv pm = some r → get_volume_info pv pm am = r)
    ∧ (parsePactl pv pm = none → ∀ r, parseAmixer am = some r →
        get_volume_info pv pm am = r)
    ∧ (parsePactl pv pm = none → parseAmixer am = none →
        get_volume_info pv pm am = (0, true))
    ∧ (∀ v m r, parsePactl (some v) (some m) = some r →
        r.2 = pyContains (pyLower m) "yes"
        ∧ ∃ t, (pySplit v).get? 4 = some t ∧ pyInt (pyRstrip t ['%']) = some r.1)
    ∧ (∀ a r, parseAmixer (some a) = some r → r.2 = pyContains (pyLower a) "off") := by
  refine ⟨?_, ?_, ?_, ?_, ?_⟩
  · intro r hr
    simp [get_volume_info, hr]
  · intro hn r hr
    simp [get_volume_info, hn, hr]
  · intro hn ha
    simp [get_volume_info, hn, ha]
  · intro v m r hr
    simp only [parsePactl, Option.bind_eq_bind, Option.some_bind] at hr
    cases ht : (pySplit v).get? 4 with
    | none => rw [ht] at hr; simp at hr
    | some t =>
      rw [ht] at hr
      simp only [Option.some_bind] at hr
      cases hn : pyInt (pyRstrip t ['%']) with
      | none => rw [hn] at hr; simp at hr
      | some n =>
        rw [hn] at hr
        have hr2 : (n, pyContains (pyLower m) "yes") = r := Option.some.inj hr
        subst hr2
        exact ⟨rfl, t, rfl, hn⟩
  · intro a r hr
    simp only [parseAmixer, Option.bind_eq_bind, Option.some_bind] at hr
    split at hr
    · simp at hr
    · cases ht : (pySplit a).get? ((pySplit a).length - 2) with
      | none => rw [ht] at hr; simp at hr
      | some t =>
        rw [ht] at hr
        simp only [Option.some_bind] at hr
        cases hn : pyInt (pyStripChars t ['[', ']', '%']) with
        | none => rw [hn] at hr; simp at hr
        | some n =>
          rw [hn] at hr
          have hr2 : (n, pyContains (pyLower a) "off") = r := Option.some.inj hr
          subst hr2
          rfl

/-- C4 witness: a concrete successful pactl parse and the double-failure
fallback. -/
theorem c4_volume_info_witness :
    get_volume_info (some "Volume: front-left: 42000 / 64% / -11.7 dB")
      (some "Mute: no") none = (64, false)
    ∧ get_volume_info none none none = (0, true) := by
  constructor
  · exact (c4_volume_info (some "Volume: front-left: 42000 / 64% / -11.7 dB")
      (some "Mute: no") none).1 (64, false) (by decide)
  · exact (c4_volume_info none none none).2.2.1 rfl rfl

/-! ## WiFi networks (`DesktopPanel.get_wifi_networks`)

`nmcli -t -f SSID,SIGNAL,SECURITY,IN-USE device wifi list` output is passed
in as `Option String`. -/

structure WifiNetwork : Type where
  ssid : String
  signal : Int
  security : String
  in_use : Bool
deriving DecidableEq, Repr

deriving instance DecidableEq for Except

/-- One iteration of the parsing loop of `get_wifi_networks`: `.ok none`
for a skipped line (empty line or empty SSID), `.error ()` when the
4-way colon unpacking or `int(signal)` raises. -/
def parseWifiLine (line : String) : Except Unit (Option WifiNetwork) :=
  if line = "" then .ok none
  else
    match pySplitOn line ':' with
    | [ssid, signal, security, inuse] =>
      if ssid = "" then .ok none
      else
        match (if signal = "" then some 0 else pyInt signal) with
        | none => .error ()
        | some sig =>
          .ok (some ⟨ssid, sig, if security = "" then "Abierta" else security,
                     inuse = "*"⟩)
    | _ => .error ()

/-- The record a line contributes, when any. -/
def okWifiRecord (line : String) : Option WifiNetwork :=
  match parseWifiLine line with
  | .ok r => r
  | .error _ => none

/-- The parsing loop: the first raising line aborts everything. -/
def collectWifi : List String → Except Unit (List WifiNetwork)
  | [] => .ok []
  | l :: ls =>
    match parseWifiLine l with
    | .error e => .error e
    | .ok none => collectWifi ls
    | .ok (some n) =>
      match collectWifi ls with
      | .error e => .error e
      | .ok ns => .ok (n :: ns)

/-- Insertion step of a stable descending-by-signal sort (extensionally the
Python stable `sorted(key=signal, reverse=True)`). -/
def insertWifiDesc (x : WifiNetwork) : List WifiNetwork → List WifiNetwork
  | [] => [x]
  | y :: ys => if x.signal < y.signal then y :: insertWifiDesc x ys else x :: y :: ys

/-- Stable descending sort by signal. -/
def sortWifiDesc (l : List WifiNetwork) : List WifiNetwork :=
  l.foldr insertWifiDesc []

/-- `get_wifi_networks`: split the stripped output on newlines, parse each
line, return sorted records; `[]` on subprocess failure or any raise. -/
def get_wifi_networks (stdout : Option String) : List WifiNetwork :=
  match stdout with
  | none => []
  | some out =>
    match collectWifi (pySplitOn (pyStrip out) '\n') with
    | .error _ => []
    | .ok nets => sortWifiDesc nets

theorem insertWifiDesc_perm (x : WifiNetwork) (l : List WifiNetwork) :
    (insertWifiDesc x l).Perm (x :: l) := by
  induction l with
  | nil => exact List.Perm.refl _
  | cons y ys ih =>
    rw [insertWifiDesc]
    split
    · exact (ih.cons y).trans (List.Perm.swap x y ys)
    · exact List.Perm.refl _

theorem sortWifiDesc_perm (l : List WifiNetwork) : (sortWifiDesc l).Perm l := by
  induction l with
  | nil => exact List.Perm.refl _
  | cons a t ih =>
    exact (insertWifiDesc_perm a (sortWifiDesc t)).trans (ih.cons a)

theorem insertWifiDesc_sorted (x : WifiNetwork) (l : List WifiNetwork)
    (h : List.Sorted (fun a b => b.signal ≤ a.signal) l) :
    List.Sorted (fun a b => b.signal ≤ a.signal) (insertWifiDesc x l) := by
  induction l with
  | nil => simp [insertWifiDesc]
  | cons y ys ih =>
    rw [List.sorted_cons] at h
    obtain ⟨hy, hys⟩ := h
    rw [insertWifiDesc]
    split
    · rename_i hlt
      rw [List.sorted_cons]
      refine ⟨?_, ih hys⟩
      intro z hz
      rcases List.mem_cons.mp ((insertWifiDesc_perm x ys).mem_iff.mp hz) with rfl | hzys
      · omega
      · exact hy z hzys
    · rename_i hge
      rw [List.sorted_cons]
      refine ⟨?_, by rw [List.sorted_cons]; exact ⟨hy, hys⟩⟩
      intro z hz
      rcases List.mem_cons.mp hz with rfl | hzys
      · omega
      · have := hy z hzys
        omega

theorem sortWifiDesc_sorted (l : List WifiNetwork) :
    List.Sorted (fun a b => b.signal ≤ a.signal) (sortWifiDesc l) := by
  induction l with
  | nil => simp [sortWifiDesc]
  | cons a t ih => exact insertWifiDesc_sorted a (sortWifiDesc t) ih

theorem collectWifi_ok (ls : List String)
    (h : ∀ l ∈ ls, parseWifiLine l ≠ .error ()) :
    collectWifi ls = .ok (ls.filterMap okWifiRecord) := by
  induction ls with
  | nil => rfl
  | cons l t ih =>
    have hl : parseWifiLine l ≠ .error () := h l (List.mem_cons_self l t)
    have ht : ∀ x ∈ t, parseWifiLine x ≠ .error () :=
      fun x hx => h x (List.mem_cons_of_mem l hx)
    rw [collectWifi, List.filterMap_cons]
    cases hp : parseWifiLine l with
    | error e => exact absurd hp hl
    | ok r =>
      cases r with
      | none =>
        have : okWifiRecord l = none := by rw [okWifiRecord, hp]
        rw [this, ih ht]
      | some n =>
        have : okWifiRecord l = some n := by rw [okWifiRecord, hp]
        rw [this, ih ht]

theorem collectWifi_error (ls : List String)
    (h : ∃ l ∈ ls, parseWifiLine l = .error ()) :
    collectWifi ls = .error () := by
  induction ls with
  | nil => simp at h
  | cons l t ih =>
    rw [collectWifi]
    cases hp : parseWifiLine l with
    | error e => rfl
    | ok r =>
      have ht : ∃ x ∈ t, parseWifiLine x = .error () := by
        rcases h with ⟨x, hx, hxe⟩
        rcases List.mem_cons.mp hx with rfl | hxt
        · rw [hp] at hxe
          exact absurd hxe (by simp)
        · exact ⟨x, hxt, hxe⟩
      cases r with
      | none => exact ih ht
      | some n => rw [ih ht]

theorem okWifiRecord_some (l : String) (n : WifiNetwork)
    (hn : okWifiRecord l = some n) : parseWifiLine l = .ok (some n) := by
  rw [okWifiRecord] at hn
  cases hp : parseWifiLine l with
  | error e => rw [hp] at hn; simp at hn
  | ok r =>
    rw [hp] at hn
    simp only at hn
    rw [hn]

theorem parseWifiLine_some (l : String) (n : WifiNetwork)
    (hp : parseWifiLine l = .ok (some n)) :
    l ≠ "" ∧ ∃ ssid sig sec inuse, pySplitOn l ':' = [ssid, sig, sec, inuse]
      ∧ ssid ≠ ""
      ∧ n.ssid = ssid
      ∧ (sig = "" → n.signal = 0)
      ∧ (sig ≠ "" → pyInt sig = some n.signal)
      ∧ n.security = (if sec = "" then "Abierta" else sec)
      ∧ (n.in_use = true ↔ inuse = "*") := by
  rw [parseWifiLine] at hp
  by_cases hl : l = ""
  · rw [if_pos hl] at hp
    simp at hp
  · rw [if_neg hl] at hp
    refine ⟨hl, ?_⟩
    cases hsp : pySplitOn l ':' with
    | nil => rw [hsp] at hp; simp at hp
    | cons a t1 =>
      cases t1 with
      | nil => rw [hsp] at hp; simp at hp
      | cons b t2 =>
        cases t2 with
        | nil => rw [hsp] at hp; simp at hp
        | cons c t3 =>
          cases t3 with
          | nil => rw [hsp] at hp; simp at hp
          | cons d t4 =>
            cases t4 with
            | cons e t5 => rw [hsp] at hp; simp at hp
            | nil =>
              rw [hsp] at hp
              simp only at hp
              by_cases ha : a = ""
              · rw [if_pos ha] at hp
                simp at hp
              · rw [if_neg ha] at hp
                refine ⟨a, b, c, d, rfl, ha, ?_⟩
                cases hsig : (if b = "" then some 0 else pyInt b) with
                | none => rw [hsig] at hp; simp at hp
                | some v =>
                  rw [hsig] at hp
                  simp only [Except.ok.injEq, Option.some.injEq] at hp
                  subst hp
                  refine ⟨rfl, ?_, ?_, rfl, ?_⟩
                  · intro hb
                    rw [if_pos hb] at hsig
                    simp only [Option.some.injEq] at hsig
                    simp [← hsig]
                  · intro hb
                    rw [if_neg hb] at hsig
                    rw [hsig]
                  · simp

/-- C2: for a colon-separated `nmcli` listing, `get_wifi_networks` returns
one record per non-empty line with non-empty SSID field — signal parsed as
an integer (0 when empty), security replaced by `Abierta` exactly when
empty, `in_use` true exactly when the field is `*` — sorted by signal in
non-increasing order; subprocess failure or any raising line yields `[]`. -/
theorem c2_get_wifi_networks (out : String)
    (h : ∀ l ∈ pySplitOn (pyStrip out) '\n', parseWifiLine l ≠ .error ()) :
    get_wifi_networks none = []
    ∧ (get_wifi_networks (some out)).Perm
        ((pySplitOn (pyStrip out) '\n').filterMap okWifiRecord)
    ∧ List.Sorted (fun a b => b.signal ≤ a.signal) (get_wifi_networks (some out))
    ∧ (∀ l n, okWifiRecord l = some n →
        l ≠ "" ∧ ∃ ssid sig sec inuse, pySplitOn l ':' = [ssid, sig, sec, inuse]
          ∧ ssid ≠ ""
          ∧ n.ssid = ssid
          ∧ (sig = "" → n.signal = 0)
          ∧ (sig ≠ "" → pyInt sig = some n.signal)
          ∧ n.security = (if sec = "" then "Abierta" else sec)
          ∧ (n.in_use = true ↔ inuse = "*"))
    ∧ (∀ bad : String,
        (∃ l ∈ pySplitOn (pyStrip bad) '\n', parseWifiLine l = .error ()) →
        get_wifi_networks (some bad) = []) := by
  have hok := collectWifi_ok _ h
  refine ⟨rfl, ?_, ?_, ?_, ?_⟩
  · simp only [get_wifi_networks, hok]
    exact sortWifiDesc_perm _
  · simp only [get_wifi_networks, hok]
    exact sortWifiDesc_sorted _
  · intro l n hn
    exact parseWifiLine_some l n (okWifiRecord_some l n hn)
  · intro bad hbad
    have he := collectWifi_error _ hbad
    simp [get_wifi_networks, he]

/-- C2 witness: a concrete three-line listing (one line with an empty SSID
is skipped), sorted output. -/
theorem c2_get_wifi_networks_witness :
    (get_wifi_networks (some "Cafe:50::\nHome:70:WPA2:*\n:30:X:")).Perm
        ((pySplitOn (pyStrip "Cafe:50::\nHome:70:WPA2:*\n:30:X:") '\n').filterMap okWifiRecord)
    ∧ List.Sorted (fun a b => b.signal ≤ a.signal)
        (get_wifi_networks (some "Cafe:50::\nHome:70:WPA2:*\n:30:X:"))
    ∧ get_wifi_networks (some "Cafe:50::\nHome:70:WPA2:*\n:30:X:")
        = [⟨"Home", 70, "WPA2", true⟩, ⟨"Cafe", 50, "Abierta", false⟩] := by
  have h := c2_get_wifi_networks "Cafe:50::\nHome:70:WPA2:*\n:30:X:" (by decide)
  exact ⟨h.2.1, h.2.2.1, by decide⟩

/-! ## Window list (`DesktopPanel.update_windows_threaded`,
`update_windows_display`)

`wmctrl -l` stdout is parsed on a worker thread; the display slot creates
one `WindowButton` per entry of `windows[:8]`. -/

/-- The panel's own window title filtered out of the list. -/
def panelTitleMarker : String := "Panel de Escritorio"

/-- One line of the `wmctrl -l` parsing loop: skip blank lines, require
`len(line.split(None, 3)) >= 4`, take `parts[0]` as the id and `parts[3]`
as the title, and drop the panel's own window. -/
def parseWindowLine (line : String) : Option (String × String) :=
  if pyStrip line = "" then none
  else
    match pySplitN line.data 3 with
    | wid :: _ :: _ :: title :: _ =>
      if pyContains title panelTitleMarker then none else some (wid, title)
    | _ => none

/-- The loop appends in order: the parsed window list. -/
def windowsFromLines (lines : List String) : List (String × String) :=
  lines.filterMap parseWindowLine

/-- `update_windows_threaded` parsing of a successful `wmctrl -l` stdout. -/
def update_windows (stdout : String) : List (String × String) :=
  windowsFromLines (pySplitOn (pyStrip stdout) '\n')

/-- `update_windows_display`: one `WindowButton` per entry of
`windows[:8]`, in order. -/
def update_windows_display (ws : List (String × String)) : List (String × String) :=
  ws.take 8

/-- Skip one whitespace-separated field: drop leading whitespace, then the
field's characters. -/
def skipField (cs : List Char) : List Char :=
  match cs.dropWhile isPySpace with
  | [] => []
  | _ :: rest => (pySplitTok rest).2

/-- The rest of the line after the first three whitespace-separated fields
(with the whitespace run after the third field skipped): the claim's
reading of "field 4". -/
def restAfterThreeFields (cs : List Char) : String :=
  String.mk ((skipField (skipField (skipField cs))).dropWhile isPySpace)

/-- The claim's description of one parsed line: non-blank, at least 4
whitespace-separated fields (unlimited split), id is field 1, title is the
rest of the line after field 3, panel-titled lines excluded. -/
def claimParseWindowLine (line : String) : Option (String × String) :=
  if pyStrip line = "" then none
  else if (pySplitW line.data).length < 4 then none
  else
    let wid := (pySplitW line.data).headD ""
    let title := restAfterThreeFields line.data
    if pyContains title panelTitleMarker then none else some (wid, title)

theorem pySplitN3_last (cs : List Char) (a b c d : String)
    (h : pySplitN cs 3 = [a, b, c, d]) : d = restAfterThreeFields cs := by
  rw [pySplitN] at h
  cases h0 : cs.dropWhile isPySpace with
  | nil => rw [h0] at h; simp at h
  | cons x0 r0 =>
    rw [h0] at h
    simp only [List.cons.injEq] at h
    obtain ⟨ha0, h⟩ := h
    rw [pySplitN] at h
    cases h1 : (pySplitTok r0).2.dropWhile isPySpace with
    | nil => rw [h1] at h; simp at h
    | cons x1 r1 =>
      rw [h1] at h
      simp only [List.cons.injEq] at h
      obtain ⟨hb0, h⟩ := h
      rw [pySplitN] at h
      cases h2 : (pySplitTok r1).2.dropWhile isPySpace with
      | nil => rw [h2] at h; simp at h
      | cons x2 r2 =>
        rw [h2] at h
        simp only [List.cons.injEq] at h
        obtain ⟨hc0, h⟩ := h
        rw [pySplitN] at h
        cases h3 : (pySplitTok r2).2.dropWhile isPySpace with
        | nil => rw [h3] at h; simp at h
        | cons x3 r3 =>
          rw [h3] at h
          simp only [List.cons.injEq, and_true] at h
          have e0 : skipField cs = (pySplitTok r0).2 := by rw [skipField, h0]
          have e1 : skipField (pySplitTok r0).2 = (pySplitTok r1).2 := by
            rw [skipField, h1]
          have e2 : skipField (pySplitTok r1).2 = (pySplitTok r2).2 := by
            rw [skipField, h2]
          rw [restAfterThreeFields, e0, e1, e2, h3]
          exact h.symm

theorem parseWindowLine_eq_claim (line : String) :
    parseWindowLine line = claimParseWindowLine line := by
  rw [parseWindowLine, claimParseWindowLine]
  by_cases hb : pyStrip line = ""
  · rw [if_pos hb, if_pos hb]
  · rw [if_neg hb, if_neg hb]
    have hlen := pySplitN_length 3 line.data
    cases hsp : pySplitN line.data 3 with
    | nil =>
      rw [hsp] at hlen
      simp only [List.length_nil] at hlen
      rw [if_pos (by omega)]
    | cons a t1 =>
      cases t1 with
      | nil =>
        rw [hsp] at hlen
        simp only [List.length_cons, List.length_nil] at hlen
        rw [if_pos (by omega)]
      | cons b t2 =>
        cases t2 with
        | nil =>
          rw [hsp] at hlen
          simp only [List.length_cons, List.length_nil] at hlen
          rw [if_pos (by omega)]
        | cons c t3 =>
          cases t3 with
          | nil =>
            rw [hsp] at hlen
            simp only [List.length_cons, List.length_nil] at hlen
            rw [if_pos (by omega)]
          | cons d t4 =>
            cases t4 with
            | cons e t5 =>
              rw [hsp] at hlen
              simp only [List.length_cons] at hlen
              omega
            | nil =>
              rw [hsp] at hlen
              simp only [List.length_cons, List.length_nil] at hlen
              rw [if_neg (by omega)]
              have hd : d = restAfterThreeFields line.data :=
                pySplitN3_last line.data a b c d hsp
              have ha : (pySplitW line.data).headD "" = a := by
                have hh := pySplitN_head 2 line.data
                rw [hsp] at hh
                cases hw : pySplitW line.data with
                | nil => rw [hw] at hh; simp at hh
                | cons w ws =>
                  rw [hw] at hh
                  simp only [List.head?_cons, Option.some.injEq] at hh
                  simp [hh.symm]
              rw [← hd, ha]

/-- C1: for every `wmctrl -l` stdout, the parsed window list is exactly the
claim's description — the non-blank lines of the stripped output splitting
into at least 4 whitespace-separated fields, id = field 1, title = the rest
of the line, lines whose title contains `Panel de Escritorio` excluded, in
order — and the display takes exactly the first 8 entries (one
`WindowButton` each). -/
theorem c1_update_windows (stdout : String) :
    update_windows stdout
      = (pySplitOn (pyStrip stdout) '\n').filterMap claimParseWindowLine
    ∧ (∀ line, parseWindowLine line = claimParseWindowLine line)
    ∧ update_windows_display (update_windows stdout)
        = (update_windows stdout).take 8
    ∧ (update_windows_display (update_windows stdout)).length
        = min 8 (update_windows stdout).length
    ∧ (update_windows_display (update_windows stdout)) <+: update_windows stdout := by
  refine ⟨?_, parseWindowLine_eq_claim, rfl, ?_, ?_⟩
  · rw [update_windows, windowsFromLines,
      show parseWindowLine = claimParseWindowLine from funext parseWindowLine_eq_claim]
  · rw [update_windows_display, List.length_take]
  · exact List.take_prefix 8 _

/-! ## Application menu (`ApplicationMenu.load_applications`)

Each application directory is `none` when `os.path.isdir` fails, otherwise
the list of `(filename, configparser result)` pairs; `.error ()` models a
raising `config.read`.  A parsed file is its section list as exposed by
`configparser` (option keys lowercased by `optionxform`, `DEFAULT`
fallbacks already merged). -/

structure DesktopFile : Type where
  sections : List (String × List (String × String))
deriving DecidableEq, Repr

/-- Python `fname.endswith(suffix)`. -/
def pyEndsWith (s suffix : String) : Bool := decide (suffix.data <:+ s.data)

/-- `"Desktop Entry" in config` / `config["Desktop Entry"]`. -/
def sectionOf (cfg : DesktopFile) (name : String) : Option (List (String × String)) :=
  cfg.sections.lookup name

/-- `entry.get(key)`: `configparser` lowercases the requested option name. -/
def entryGet (entry : List (String × String)) (key : String) : Option String :=
  entry.lookup (pyLower key)

/-- `entry.get(key, dflt)`. -/
def entryGetD (entry : List (String × String)) (key dflt : String) : String :=
  (entryGet entry key).getD dflt

/-- One file of the `load_applications` scan; `none` = the file contributes
no application (wrong extension, raising parse, missing section, NoDisplay,
missing/empty Name or Exec, or the `exec_cmd.split()[0]` `IndexError`
caught by the surrounding `except`). -/
def appOfFile (fname : String) (parsed : Except Unit DesktopFile) :
    Option (String × String × String) :=
  if pyEndsWith fname ".desktop" then
    match parsed with
    | .error _ => none
    | .ok cfg =>
      match sectionOf cfg "Desktop Entry" with
      | none => none
      | some entry =>
        if pyLower (entryGetD entry "NoDisplay" "false") = "true" then none
        else
          if pyTruthy (entryGet entry "Name") && pyTruthy (entryGet entry "Exec") then
            match pySplit ((entryGet entry "Exec").getD "") with
            | [] => none
            | c :: _ => some ((entryGet entry "Name").getD "", c, entryGetD entry "Icon" "")
          else none
  else none

/-- `load_applications`: scan the directories in order, in-order appends. -/
def load_applications
    (dirs : List (Option (List (String × Except Unit DesktopFile)))) :
    List (String × String × String) :=
  (dirs.map (fun d =>
    match d with
    | none => []
    | some files => files.filterMap (fun f => appOfFile f.1 f.2))).flatten

/-- The values of a parsed config are `configparser`-normalized:
`configparser.read` strips every option value, so whitespace-only values
cannot occur (a whitespace-only value in the file reads back as `""`). -/
def valuesStripped (cfg : DesktopFile) : Bool :=
  cfg.sections.all (fun sec => sec.2.all (fun kv => pyStrip kv.2 == kv.2))

/-- `valuesStripped` lifted over a parse result. -/
def parsedStripped (p : Except Unit DesktopFile) : Bool :=
  match p with
  | .error _ => true
  | .ok cfg => valuesStripped cfg

/-- The claim's description of one scanned file: a `.desktop` file parsing
with a `Desktop Entry` section, NoDisplay (lowercased) not `true`, Name and
Exec both present and non-empty; the entry is the Name, the first
whitespace-separated token of Exec, and the Icon value or `""`. -/
def claimAppOfFile (fname : String) (parsed : Except Unit DesktopFile) :
    Option (String × String × String) :=
  if pyEndsWith fname ".desktop" then
    match parsed with
    | .error _ => none
    | .ok cfg =>
      match sectionOf cfg "Desktop Entry" with
      | none => none
      | some entry =>
        if pyLower (entryGetD entry "NoDisplay" "false") = "true" then none
        else
          match entryGet entry "Name", entryGet entry "Exec" with
          | some nm, some ex =>
            if nm ≠ "" ∧ ex ≠ "" then
              some (nm, (pySplit ex).headD "", entryGetD entry "Icon" "")
            else none
          | some _, none => none
          | none, _ => none
  else none

theorem lookup_mem {β : Type} (l : List (String × β)) (k : String) (v : β)
    (h : l.lookup k = some v) : ∃ a, (a, v) ∈ l := by
  induction l with
  | nil => simp [List.lookup] at h
  | cons p t ih =>
    obtain ⟨p1, p2⟩ := p
    rw [List.lookup] at h
    cases hbeq : k == p1 with
    | true =>
      rw [hbeq] at h
      simp only at h
      have hv : p2 = v := Option.some.inj h
      subst hv
      exact ⟨p1, List.mem_cons_self _ _⟩
    | false =>
      rw [hbeq] at h
      simp only at h
      obtain ⟨a, ha⟩ := ih h
      exact ⟨a, List.mem_cons_of_mem _ ha⟩

/-- A non-empty string equal to its own strip splits into at least one
whitespace-separated token. -/
theorem pySplit_ne_nil_of_stripped (ex : String) (hs : pyStrip ex = ex)
    (hne : ex ≠ "") : pySplit ex ≠ [] := by
  have hdrop : ex.data.dropWhile isPySpace ≠ [] := by
    intro hdrop
    apply hne
    rw [← hs, pyStrip, hdrop]
    rfl
  rw [pySplit, pySplitW_eq]
  cases hd : ex.data.dropWhile isPySpace with
  | nil => exact absurd hd hdrop
  | cons c rest => simp

theorem appOfFile_eq_claim (fname : String) (p : Except Unit DesktopFile)
    (hp : parsedStripped p = true) :
    appOfFile fname p = claimAppOfFile fname p := by
  rw [appOfFile.eq_def, claimAppOfFile.eq_def]
  by_cases he : pyEndsWith fname ".desktop" = true
  · rw [if_pos he, if_pos he]
    cases p with
    | error e => rfl
    | ok cfg =>
      simp only []
      cases hs : sectionOf cfg "Desktop Entry" with
      | none => rfl
      | some entry =>
        simp only []
        have hentry : ∀ k v, entry.lookup k = some v → pyStrip v = v := by
          intro k v hkv
          obtain ⟨a, ha⟩ := lookup_mem entry k v hkv
          rw [sectionOf] at hs
          obtain ⟨sname, hsec⟩ := lookup_mem cfg.sections "Desktop Entry" entry hs
          simp only [parsedStripped, valuesStripped, List.all_eq_true] at hp
          have h2 := hp (sname, entry) hsec (a, v) ha
          simpa using h2
        by_cases hnd : pyLower (entryGetD entry "NoDisplay" "false") = "true"
        · rw [if_pos hnd, if_pos hnd]
        · rw [if_neg hnd, if_neg hnd]
          cases hname : entryGet entry "Name" with
          | none => simp [pyTruthy]
          | some nm =>
            cases hexec : entryGet entry "Exec" with
            | none => simp [pyTruthy]
            | some ex =>
              by_cases hn : nm = ""
              · subst hn
                simp [pyTruthy]
              · by_cases hx : ex = ""
                · subst hx
                  simp [pyTruthy]
                · have hst : pyStrip ex = ex := by
                    apply hentry (pyLower "Exec") ex
                    rw [entryGet] at hexec
                    exact hexec
                  have hps : pySplit ex ≠ [] :=
                    pySplit_ne_nil_of_stripped ex hst hx
                  cases hsp2 : pySplit ex with
                  | nil => exact absurd hsp2 hps
                  | cons c cs => simp [pyTruthy, hn, hx, hsp2]
  · rw [if_neg he, if_neg he]

/-- C5: `load_applications` includes one entry per `.desktop` file parsing
with a `Desktop Entry` section whose lowercased NoDisplay is not `true` and
whose Name and Exec values are both present and non-empty; the stored
command is the first whitespace-separated token of Exec and the icon the
Icon value or the empty string; raising files are skipped without aborting
the scan.  The hypothesis records that `configparser.read` strips option
values, so a truthy Exec always has a first token and
`exec_cmd.split()[0]` cannot raise. -/
theorem c5_load_applications
    (dirs : List (Option (List (String × Except Unit DesktopFile))))
    (h : ∀ d ∈ dirs, ∀ f ∈ d.getD [], parsedStripped f.2 = true) :
    load_applications dirs
      = (dirs.map (fun d =>
          match d with
          | none => []
          | some files => files.filterMap (fun f => claimAppOfFile f.1 f.2))).flatten
    ∧ (∀ fname p, parsedStripped p = true →
        appOfFile fname p = claimAppOfFile fname p) := by
  refine ⟨?_, fun fname p hp => appOfFile_eq_claim fname p hp⟩
  rw [load_applications]
  congr 1
  apply List.map_congr_left
  intro d hd
  cases d with
  | none => rfl
  | some files =>
    simp only []
    apply List.filterMap_congr
    intro f hf
    exact appOfFile_eq_claim f.1 f.2 (h (some files) hd f hf)

/-- C5 witness: a directory with one well-formed `.desktop` file (Exec with
arguments), one non-`.desktop` file and one raising file, plus one missing
directory, yields exactly the one entry with the first Exec token. -/
theorem c5_load_applications_witness :
    load_applications
      [some [("app.desktop",
          .ok ⟨[("Desktop Entry",
            [("name", "App"), ("exec", "run --now"), ("icon", "app")])]⟩),
        ("notes.txt", .ok ⟨[]⟩), ("bad.desktop", .error ())], none]
      = [("App", "run", "app")] := by
  rw [(c5_load_applications
    [some [("app.desktop",
        .ok ⟨[("Desktop Entry",
          [("name", "App"), ("exec", "run --now"), ("icon", "app")])]⟩),
      ("notes.txt", .ok ⟨[]⟩), ("bad.desktop", .error ())], none]
    (by decide)).1]
  decide


/-! ## Storage devices (`DesktopPanel.get_storage_devices`)

The `lsblk -Jpo ...` JSON document is modelled with string-or-null field
values (all columns requested from `lsblk` are strings), each field
`Option JStr` with `none` = key absent.  Python semantics modelled:
`device.get(k)` gives `None` both for an absent key and a JSON `null`;
`device.get(k, '')` gives `''` only for an absent key and `None` for a JSON
`null`; calling `.strip()` on `None` raises `AttributeError`, which the
function-wide `except` turns into returning the devices accumulated so
far. -/

inductive JStr : Type
  | s (v : String)
  | null
deriving DecidableEq, Repr

/-- `device.get(k)` (no default): the string, or `None`. -/
def pyGetNone (f : Option JStr) : Option String :=
  match f with
  | some (.s v) => some v
  | _ => none

/-- `device.get(k, dflt)`: the default only when the key is absent. -/
def pyGetD (f : Option JStr) (dflt : String) : Option String :=
  match f with
  | none => some dflt
  | some .null => none
  | some (.s v) => some v

/-- One entry of the `blockdevices` array. -/
structure BlockDevice : Type where
  name : Option JStr
  label : Option JStr
  type : Option JStr
  size : Option JStr
  mountpoint : Option JStr
  vendor : Option JStr
  model : Option JStr
  hotplug : Option JStr
  rm : Option JStr
  tran : Option JStr
deriving DecidableEq, Repr

/-- The parsed `lsblk` document; `blockdevices := none` models a document
without the `blockdevices` key. -/
structure LsblkDoc : Type where
  blockdevices : Option (List BlockDevice)
deriving DecidableEq, Repr

/-- The external-storage condition of `get_storage_devices`. -/
def isExternal (d : BlockDevice) : Bool :=
  ((pyGetNone d.type == some "disk") || (pyGetNone d.type == some "part"))
    && ((pyGetNone d.rm == some "1") || (pyGetNone d.hotplug == some "1")
        || (pyGetNone d.tran == some "usb"))
    && pyTruthy (pyGetNone d.mountpoint)

/-- `os.path.basename`: the part after the last `/`. -/
def pyBasename (s : String) : String := (pySplitOn s '/').getLastD ""

/-- The descriptive-name computation; `.error ()` models the
`AttributeError` of `None.strip()` when vendor or model is JSON `null`. -/
def computeName (d : BlockDevice) : Except Unit String :=
  if pyTruthy (pyGetD d.label "") then .ok ((pyGetD d.label "").getD "")
  else
    match pyGetD d.vendor "" with
    | none => .error ()
    | some vRaw =>
      match pyGetD d.model "" with
      | none => .error ()
      | some mRaw =>
        if pyStrip vRaw ≠ "" ∨ pyStrip mRaw ≠ "" then
          .ok (pyStrip (pyStrip vRaw ++ " " ++ pyStrip mRaw))
        else .ok (pyBasename ((pyGetNone d.mountpoint).getD ""))

/-- One appended device record. -/
structure StorageEntry : Type where
  name : String
  path : Option String
  size : Option String
  mountpoint : Option String
  vendor : Option String
  model : Option String
deriving DecidableEq, Repr

/-- Build the appended record for one qualifying device; `.error ()` also
covers `KeyError` on the direct `device['name']` / `device['mountpoint']`
indexing. -/
def entryOf (d : BlockDevice) : Except Unit StorageEntry :=
  match computeName d with
  | .error e => .error e
  | .ok nm =>
    match d.name with
    | none => .error ()
    | some pathV =>
      match d.mountpoint with
      | none => .error ()
      | some mpV =>
        .ok { name := nm,
              path := pyGetNone (some pathV),
              size := pyGetD d.size "Desconocido",
              mountpoint := pyGetNone (some mpV),
              vendor := pyGetD d.vendor "",
              model := pyGetD d.model "" }

/-- The device loop: a raising device aborts the loop, returning the
entries accumulated so far. -/
def processDevices : List BlockDevice → List StorageEntry → List StorageEntry
  | [], acc => acc
  | d :: ds, acc =>
    if isExternal d then
      match entryOf d with
      | .error _ => acc
      | .ok e => processDevices ds (acc ++ [e])
    else processDevices ds acc

/-- `get_storage_devices`: `none` = the subprocess call or `json.loads`
raised. -/
def get_storage_devices (doc : Option LsblkDoc) : List StorageEntry :=
  match doc with
  | none => []
  | some j =>
    match j.blockdevices with
    | none => []
    | some ds => processDevices ds []

/-- The claim's name rule: the label when non-empty, else the stripped
concatenation "vendor model" when either is non-empty, else the basename of
the mountpoint. -/
def claimName (d : BlockDevice) : String :=
  if (pyGetD d.label "").getD "" ≠ "" then (pyGetD d.label "").getD ""
  else
    if pyStrip ((pyGetD d.vendor "").getD "") ≠ ""
        ∨ pyStrip ((pyGetD d.model "").getD "") ≠ "" then
      pyStrip (pyStrip ((pyGetD d.vendor "").getD "") ++ " "
        ++ pyStrip ((pyGetD d.model "").getD ""))
    else pyBasename ((pyGetNone d.mountpoint).getD "")

theorem computeName_ok_claim (d : BlockDevice) (nm : String)
    (hc : computeName d = .ok nm) : nm = claimName d := by
  rw [computeName] at hc
  by_cases hl : pyTruthy (pyGetD d.label "") = true
  · rw [if_pos hl] at hc
    simp only [Except.ok.injEq] at hc
    subst hc
    cases hg : pyGetD d.label "" with
    | none => rw [hg] at hl; simp [pyTruthy] at hl
    | some s =>
      rw [hg] at hl
      simp only [pyTruthy, ne_eq, decide_eq_true_eq] at hl
      rw [claimName, hg]
      simp [hl]
  · rw [if_neg hl] at hc
    have hlab : (pyGetD d.label "").getD "" = "" := by
      cases hg : pyGetD d.label "" with
      | none => rfl
      | some s =>
        rw [hg] at hl
        simp only [pyTruthy, ne_eq, decide_eq_true_eq] at hl
        simp at hl
        simp [hl]
    rw [claimName]
    rw [if_neg (by simp [hlab])]
    cases hv : pyGetD d.vendor "" with
    | none => rw [hv] at hc; simp at hc
    | some vR =>
      rw [hv] at hc
      simp only [] at hc
      cases hm : pyGetD d.model "" with
      | none => rw [hm] at hc; simp at hc
      | some mR =>
        rw [hm] at hc
        simp only [] at hc
        simp only [Option.getD_some]
        split at hc
        · rename_i hcond
          simp only [Except.ok.injEq] at hc
          subst hc
          rw [if_pos hcond]
        · rename_i hcond
          simp only [Except.ok.injEq] at hc
          subst hc
          rw [if_neg hcond]

theorem entryOf_name_eq_claim (d : BlockDevice) (e : StorageEntry)
    (he : entryOf d = .ok e) : e.name = claimName d := by
  rw [entryOf] at he
  cases hc : computeName d with
  | error u => rw [hc] at he; simp at he
  | ok nm =>
    rw [hc] at he
    simp only [] at he
    cases hn : d.name with
    | none => rw [hn] at he; simp at he
    | some pv =>
      rw [hn] at he
      simp only [] at he
      cases hm : d.mountpoint with
      | none => rw [hm] at he; simp at he
      | some mv =>
        rw [hm] at he
        simp only [Except.ok.injEq] at he
        subst he
        exact computeName_ok_claim d nm hc

theorem processDevices_ok (ds : List BlockDevice) (acc : List StorageEntry)
    (h : ∀ d ∈ ds, isExternal d = true → (entryOf d).toOption.isSome = true) :
    processDevices ds acc
      = acc ++ ds.filterMap
          (fun d => if isExternal d then (entryOf d).toOption else none) := by
  induction ds generalizing acc with
  | nil => simp [processDevices]
  | cons d t ih =>
    rw [processDevices, List.filterMap_cons]
    by_cases hd : isExternal d = true
    · cases hent : entryOf d with
      | error u =>
        exfalso
        have := h d (List.mem_cons_self d t) hd
        rw [hent] at this
        simp [Except.toOption] at this
      | ok e =>
        rw [if_pos hd]
        simp only []
        rw [ih _ (fun x hx hex => h x (List.mem_cons_of_mem d hx) hex)]
        rw [if_pos hd]
        simp [Except.toOption]
    · have hd0 : isExternal d = false := by
        revert hd
        cases isExternal d <;> simp
      rw [if_neg hd]
      simp only [hd0, Bool.false_eq_true, if_false]
      exact ih _ (fun x hx hex => h x (List.mem_cons_of_mem d hx) hex)

/-- C3 (amended): `get_storage_devices` lists exactly the block devices
satisfying the external-storage condition (type `disk`/`part`, truthy
mountpoint, and `rm == '1'` or `hotplug == '1'` or `tran == 'usb'`), with
the claimed name rule, provided each qualifying device's record builds
without raising (in particular its vendor and model fields are strings when
its label is empty); a device whose record raises aborts the loop, keeping
only the devices listed before it (see the counterexample). -/
theorem c3_get_storage_devices (devs : List BlockDevice)
    (h : ∀ d ∈ devs, isExternal d = true → (entryOf d).toOption.isSome = true) :
    get_storage_devices (some ⟨some devs⟩)
      = devs.filterMap
          (fun d => if isExternal d then (entryOf d).toOption else none)
    ∧ (∀ d e, entryOf d = .ok e → e.name = claimName d)
    ∧ get_storage_devices none = []
    ∧ get_storage_devices (some ⟨none⟩) = [] := by
  refine ⟨?_, entryOf_name_eq_claim, rfl, rfl⟩
  have hp := processDevices_ok devs [] h
  simpa using hp

/-- A realistic qualifying partition whose label is JSON `null` and whose
vendor and model are JSON `null` (as `lsblk` reports for partitions). -/
def c3dev : BlockDevice :=
  { name := some (.s "/dev/sdb1"), label := some .null,
    type := some (.s "part"), size := some (.s "8G"),
    mountpoint := some (.s "/mnt/usb"),
    vendor := some .null, model := some .null,
    hotplug := some (.s "1"), rm := some (.s "1"), tran := some (.s "usb") }

/-- C3 counterexample: `c3dev` satisfies the external-storage condition of
the claim (type `part`, mountpoint present and truthy, `rm == '1'`), so the
claim demands it be listed — but `get_storage_devices` returns `[]` for a
document containing only it: with a null label, `device.get('vendor', '')`
is `None` and `None.strip()` raises `AttributeError`, so the loop aborts. -/
theorem c3_counterexample :
    isExternal c3dev = true
    ∧ get_storage_devices (some ⟨some [c3dev]⟩) = [] := by
  refine ⟨by decide, by decide⟩

/-- C3 witness: a document with one labelled external partition and one
internal disk lists exactly the external one. -/
theorem c3_get_storage_devices_witness :
    get_storage_devices (some ⟨some
      [{ name := some (.s "/dev/sdc1"), label := some (.s "USB"),
         type := some (.s "part"), size := some (.s "8G"),
         mountpoint := some (.s "/media/u"),
         vendor := some .null, model := some .null,
         hotplug := some (.s "1"), rm := some (.s "1"),
         tran := some (.s "usb") },
       { name := some (.s "/dev/sda"), label := some .null,
         type := some (.s "disk"), size := some (.s "500G"),
         mountpoint := some (.s "/"),
         vendor := some (.s "ATA"), model := some (.s "Disk"),
         hotplug := some (.s "0"), rm := some (.s "0"),
         tran := some (.s "sata") }]⟩)
      = [{ name := "USB", path := some "/dev/sdc1", size := some "8G",
           mountpoint := some "/media/u", vendor := none, model := none }] := by
  rw [(c3_get_storage_devices _ (by decide)).1]
  decide
